import Mathlib

/-!
Shallow embedding of the serverless per-endpoint connection pool
(`proxy/src/serverless/conn_pool.rs`) and proofs of its specified
properties.

The stateful Rust code is modelled by explicit state passing: every
operation takes the `GlobalConnPool` state and returns the updated state
together with its result.  `HashMap`/`DashMap` are modelled as association
lists with first-match lookup, `Vec` stacks as lists pushed/popped at the
tail.  The two awaited external steps of the acquire path (the dial to
compute and the `spawn_blocking` hashing task) are passed in as `Except`
oracles.  PBKDF2 hashing (external `pbkdf2` crate) is idealised: a hash
remembers its salt and the hashed password, and verification succeeds
exactly on the original password.
-/

set_option autoImplicit false

namespace ConnPool

/-- `ConnInfo` from `conn_pool.rs`: request-scoped connection information. -/
structure ConnInfo where
  username : String
  dbname : String
  hostname : String
  password : String
  options : Option String
  deriving DecidableEq

/-- `ConnInfo::db_and_user`. -/
def ConnInfo.db_and_user (c : ConnInfo) : String × String :=
  (c.dbname, c.username)

/-- The `fmt::Display` impl for `ConnInfo`: `write!(f, "{}@{}/{}", username, hostname, dbname)`. -/
def connInfoDisplay (c : ConnInfo) : String :=
  c.username ++ "@" ++ c.hostname ++ "/" ++ c.dbname

/-- Whether `pat` occurs at the start of `l` (on char lists). -/
def charsPrefix : List Char → List Char → Bool
  | [], _ => true
  | _ :: _, [] => false
  | a :: as, b :: bs => a == b && charsPrefix as bs

/-- Whether `pat` occurs anywhere inside `l` (on char lists). -/
def charsContain (pat : List Char) : List Char → Bool
  | [] => charsPrefix pat []
  | b :: bs => charsPrefix pat (b :: bs) || charsContain pat bs

/-- `str::contains` restricted to substring patterns, as used on the dial
error message (`err.to_string().contains("password authentication failed")`). -/
def strContains (s pat : String) : Bool :=
  charsContain pat.data s.data

/-- Model of a serialised PBKDF2 hash (`PasswordHashString`): the salt and the
password it was derived from stand in for the derived key, so that
verification succeeds exactly on the original password. -/
structure HashString where
  salt : Nat
  pw : String
  deriving DecidableEq

/-- Model of `Pbkdf2.hash_password_customized(pw, .., PARAMS, &salt).serialize()`. -/
def pbkdf2Hash (pw : String) (salt : Nat) : HashString :=
  ⟨salt, pw⟩

/-- Model of `Pbkdf2.verify_password(pw, &hash)` being `Ok`. -/
def verifyPassword (pw : String) (h : HashString) : Bool :=
  pw == h.pw

/-- Model of `ClientInner`: the `tokio_postgres` client is abstracted to its
`is_closed` flag plus the `conn_id` minted at dial; the `session` watch sender
and usage-metrics `ids` only feed logging/metrics and are omitted. -/
structure ClientInner where
  conn_id : Nat
  isClosed : Bool
  deriving DecidableEq

/-- `ConnPoolEntry` (its `_last_access` timestamp is never read by the code). -/
structure ConnPoolEntry where
  conn : ClientInner
  deriving DecidableEq

/-- `DbUserConnPool`: the LIFO stack of idle connections (list tail = top of
the `Vec`) plus the optional cached password hash. -/
structure DbUserConnPool where
  conns : List ConnPoolEntry
  password_hash : Option HashString
  deriving DecidableEq

/-- Key type of the per-endpoint map: `(dbname, username)`. -/
abbrev DbUser := String × String

/-- `EndpointConnPool`: `(dbname, username) → DbUserConnPool` plus the
`total_conns` counter. -/
structure EndpointConnPool where
  pools : List (DbUser × DbUserConnPool)
  total_conns : Nat
  deriving DecidableEq

/-- `GlobalConnPool` (the `proxy_config` reference carries no pool state and
is omitted). -/
structure GlobalConnPool where
  global_pool : List (String × EndpointConnPool)
  global_pool_size : Nat
  max_conns_per_endpoint : Nat
  closed : Bool
  deriving DecidableEq

/-- `GlobalConnPool::new` (with `MAX_CONNS_PER_ENDPOINT = 20`). -/
def GlobalConnPool.new : GlobalConnPool :=
  ⟨[], 0, 20, false⟩

/-- First-match association-list lookup (model of `HashMap::get` / `DashMap::get`). -/
def alookup {κ ν : Type} [DecidableEq κ] : List (κ × ν) → κ → Option ν
  | [], _ => none
  | (k, v) :: rest, key => if k = key then some v else alookup rest key

/-- Replace the value bound to `key` (first match only): the write-back of a
`HashMap::get_mut` mutation. -/
def aupdate {κ ν : Type} [DecidableEq κ] : List (κ × ν) → κ → ν → List (κ × ν)
  | [], _, _ => []
  | (k, v) :: rest, key, w =>
    if k = key then (k, w) :: rest else (k, v) :: aupdate rest key w

/-- `Vec::pop`: remove and return the last element. -/
def popLast {α : Type} (l : List α) : Option (α × List α) :=
  match l.getLast? with
  | none => none
  | some x => some (x, l.dropLast)

/-- `GlobalConnPool::get_or_create_endpoint_pool`.  Returns the updated global
state together with the endpoint pool's value (the contents of the returned
`Arc`); callers that mutate the pool under its write lock commit the mutation
with `writeEndpoint`. -/
def get_or_create_endpoint_pool (st : GlobalConnPool) (endpoint : String) :
    GlobalConnPool × EndpointConnPool :=
  match alookup st.global_pool endpoint with
  | some pool => (st, pool)
  | none =>
    let new_pool : EndpointConnPool := ⟨[], 0⟩
    ({ st with
        global_pool := st.global_pool ++ [(endpoint, new_pool)],
        global_pool_size := st.global_pool_size + 1 },
      new_pool)

/-- Commit a mutation made under an endpoint pool's write lock back into the
global map (making the `Arc<RwLock<EndpointConnPool>>` aliasing explicit). -/
def writeEndpoint (st : GlobalConnPool) (endpoint : String) (ep : EndpointConnPool) :
    GlobalConnPool :=
  { st with global_pool := aupdate st.global_pool endpoint ep }

/-- `GlobalConnPool::shutdown`: set `closed`, then `retain` with a closure that
clears each endpoint pool's buckets, zeros its counter and returns `false`
(removing every entry). -/
def shutdown (st : GlobalConnPool) : GlobalConnPool :=
  { st with
      closed := true,
      global_pool :=
        (st.global_pool.map fun kv =>
            (kv.1, ({ pools := [], total_conns := 0 } : EndpointConnPool))).filter
          fun _ => false }

/-- `GlobalConnPool::put`.  Returns the new state together with the `returned`
flag (whether the connection was placed back into a bucket). -/
def put (st : GlobalConnPool) (conn_info : ConnInfo) (client : ClientInner) :
    GlobalConnPool × Bool :=
  if st.closed then (st, false)
  else if client.isClosed then (st, false)
  else
    let st1 := (get_or_create_endpoint_pool st conn_info.hostname).1
    let pool := (get_or_create_endpoint_pool st conn_info.hostname).2
    if pool.total_conns < st1.max_conns_per_endpoint then
      match alookup pool.pools conn_info.db_and_user with
      | some pool_entries =>
        let pool1 : EndpointConnPool :=
          { pool with
              pools := aupdate pool.pools conn_info.db_and_user
                { pool_entries with conns := pool_entries.conns ++ [⟨client⟩] },
              total_conns := pool.total_conns + 1 }
        (writeEndpoint st1 conn_info.hostname pool1, true)
      | none => (st1, false)
    else (st1, false)

/-- `tokio_postgres::ReadyForQueryStatus`, the transaction-state indicator
observed at command boundaries. -/
inductive ReadyForQueryStatus where
  | Idle
  | InTransaction
  | InFailedTransaction
  deriving DecidableEq

/-- The lease handle (`Client` in the source).  The back-reference
`Option<(ConnInfo, Arc<GlobalConnPool>)>` is modelled as `Option ConnInfo`;
the global pool state is threaded explicitly. -/
structure Client where
  conn_id : Nat
  inner : ClientInner
  pool : Option ConnInfo
  deriving DecidableEq

/-- `Client::new`. -/
def Client.new (inner : ClientInner) (pool : Option ConnInfo) : Client :=
  ⟨inner.conn_id, inner, pool⟩

/-- `Discard::check_idle` (reached through `Client::check_idle`): when the
status is not `Idle`, `take` the back-reference (logging only otherwise). -/
def checkIdle (c : Client) (status : ReadyForQueryStatus) : Client :=
  if status ≠ ReadyForQueryStatus.Idle then { c with pool := none } else c

/-- `Discard::discard`: unconditionally `take` the back-reference. -/
def Client.discard (c : Client) : Client :=
  { c with pool := none }

/-- `impl Drop for Client`: if the back-reference is present, spawn
`conn_pool.put(&conn_info, client)`; otherwise the connection is dropped. -/
def dropClient (st : GlobalConnPool) (c : Client) : GlobalConnPool :=
  match c.pool with
  | none => st
  | some info => (put st info c.inner).1

/-- The non-`force_new` front half of `GlobalConnPool::get`: peek the bucket's
password hash under the read lock (only when the bucket has idle connections),
verify it off-thread, and on success pop the top idle connection under the
write lock, decrementing `total_conns`.  Returns the new state, `hash_valid`,
and the popped connection. -/
def acquirePeekPop (st : GlobalConnPool) (conn_info : ConnInfo) :
    GlobalConnPool × Bool × Option ClientInner :=
  let st1 := (get_or_create_endpoint_pool st conn_info.hostname).1
  let pool := (get_or_create_endpoint_pool st conn_info.hostname).2
  let hash : Option HashString :=
    match alookup pool.pools conn_info.db_and_user with
    | some pool_entries =>
      if pool_entries.conns.isEmpty then none else pool_entries.password_hash
    | none => none
  match hash with
  | none => (st1, false, none)
  | some h =>
    if verifyPassword conn_info.password h then
      match alookup pool.pools conn_info.db_and_user with
      | some pool_entries =>
        match popLast pool_entries.conns with
        | some (entry, rest) =>
          (writeEndpoint st1 conn_info.hostname
            { pool with
                pools := aupdate pool.pools conn_info.db_and_user
                  { pool_entries with conns := rest },
                total_conns := pool.total_conns - 1 },
            true, some entry.conn)
        | none => (st1, true, none)
      | none => (st1, true, none)
    else (st1, false, none)

/-- The dial-result half of `GlobalConnPool::get`: hash maintenance keyed on
the dial outcome, then wrap the new connection in a lease.  `dial` is the
result of `connect_to_compute` (an error carries its display string);
`hash_task` is the outcome of the `spawn_blocking` hashing task, yielding the
generated salt on success (the task hashes the supplied password). -/
def dialFinish (st : GlobalConnPool) (conn_info : ConnInfo)
    (force_new hash_valid : Bool) (pool_ref : Option ConnInfo)
    (dial : Except String ClientInner) (hash_task : Except String Nat) :
    GlobalConnPool × Except String Client :=
  match dial with
  | Except.error err =>
    if hash_valid && strContains err "password authentication failed" then
      let st1 := (get_or_create_endpoint_pool st conn_info.hostname).1
      let pool := (get_or_create_endpoint_pool st conn_info.hostname).2
      match alookup pool.pools conn_info.db_and_user with
      | some entry =>
        (writeEndpoint st1 conn_info.hostname
          { pool with
              pools := aupdate pool.pools conn_info.db_and_user
                { entry with password_hash := none } },
          Except.error err)
      | none => (st1, Except.error err)
    else (st, Except.error err)
  | Except.ok client =>
    if !force_new && !hash_valid then
      match hash_task with
      | Except.error e => (st, Except.error e)
      | Except.ok salt =>
        let new_hash := pbkdf2Hash conn_info.password salt
        let st1 := (get_or_create_endpoint_pool st conn_info.hostname).1
        let pool := (get_or_create_endpoint_pool st conn_info.hostname).2
        let pools1 :=
          match alookup pool.pools conn_info.db_and_user with
          | some entry =>
            aupdate pool.pools conn_info.db_and_user
              { entry with password_hash := some new_hash }
          | none => pool.pools ++ [(conn_info.db_and_user, ⟨[], some new_hash⟩)]
        (writeEndpoint st1 conn_info.hostname { pool with pools := pools1 },
          Except.ok (Client.new client pool_ref))
    else (st, Except.ok (Client.new client pool_ref))

/-- `GlobalConnPool::get`, the acquire path.  A popped cached connection that
is still open is reused directly (skipping hash maintenance); a closed popped
connection, or no popped connection, falls through to the dial. -/
def get (st : GlobalConnPool) (conn_info : ConnInfo) (force_new : Bool)
    (dial : Except String ClientInner) (hash_task : Except String Nat) :
    GlobalConnPool × Except String Client :=
  let pool_ref : Option ConnInfo := if force_new then none else some conn_info
  let step :=
    if force_new then (st, false, none) else acquirePeekPop st conn_info
  let st1 := step.1
  let hash_valid := step.2.1
  match step.2.2 with
  | some c =>
    if c.isClosed then
      dialFinish st1 conn_info force_new hash_valid pool_ref dial hash_task
    else (st1, Except.ok (Client.new c pool_ref))
  | none => dialFinish st1 conn_info force_new hash_valid pool_ref dial hash_task

/-- The hash the acquire path peeks for `conn_info`: the bucket's stored hash,
but only when the bucket has at least one idle connection. -/
def peekedHash (st : GlobalConnPool) (conn_info : ConnInfo) : Option HashString :=
  match alookup st.global_pool conn_info.hostname with
  | some ep =>
    match alookup ep.pools conn_info.db_and_user with
    | some b => if b.conns.isEmpty then none else b.password_hash
    | none => none
  | none => none

/-- The `hash_valid` flag of `GlobalConnPool::get`: the peeked hash exists and
verifies against the supplied password. -/
def hashValid (st : GlobalConnPool) (conn_info : ConnInfo) : Bool :=
  match peekedHash st conn_info with
  | some h => verifyPassword conn_info.password h
  | none => false

/-- Observer: the stored password hash of the `(host, (dbname, username))` bucket. -/
def bucketHash (st : GlobalConnPool) (host : String) (key : DbUser) : Option HashString :=
  match alookup st.global_pool host with
  | some ep =>
    match alookup ep.pools key with
    | some b => b.password_hash
    | none => none
  | none => none

/-- Observer: the idle stack of the `(host, (dbname, username))` bucket. -/
def bucketConns (st : GlobalConnPool) (host : String) (key : DbUser) : List ConnPoolEntry :=
  match alookup st.global_pool host with
  | some ep =>
    match alookup ep.pools key with
    | some b => b.conns
    | none => []
  | none => []

/-- Observer: the `total_conns` counter of an endpoint pool. -/
def endpointTotal (st : GlobalConnPool) (host : String) : Nat :=
  match alookup st.global_pool host with
  | some ep => ep.total_conns
  | none => 0

/-- The number of idle connections actually held by an endpoint pool. -/
def sumConns (ep : EndpointConnPool) : Nat :=
  (ep.pools.map fun kv => kv.2.conns.length).sum

/-- Counter-consistency invariant: every endpoint's `total_conns` equals the
sum of its bucket stack lengths. -/
def CounterConsistent (st : GlobalConnPool) : Prop :=
  ∀ kv ∈ st.global_pool, kv.2.total_conns = sumConns kv.2

/-- Capacity invariant: every endpoint holds at most `max_conns_per_endpoint`
idle connections. -/
def CapacityBounded (st : GlobalConnPool) : Prop :=
  ∀ kv ∈ st.global_pool, sumConns kv.2 ≤ st.max_conns_per_endpoint

section AssocLemmas

variable {κ ν : Type} [DecidableEq κ]

theorem alookup_mem {l : List (κ × ν)} {k : κ} {v : ν} (h : alookup l k = some v) :
    (k, v) ∈ l := by
  induction l with
  | nil => simp [alookup] at h
  | cons hd tl ih =>
    obtain ⟨k1, v1⟩ := hd
    by_cases hk : k1 = k
    · subst hk
      simp [alookup] at h
      subst h
      exact List.mem_cons_self _ _
    · simp [alookup, hk] at h
      exact List.mem_cons_of_mem _ (ih h)

theorem alookup_append (l1 l2 : List (κ × ν)) (k : κ) :
    alookup (l1 ++ l2) k =
      match alookup l1 k with
      | some v => some v
      | none => alookup l2 k := by
  induction l1 with
  | nil => simp [alookup]
  | cons hd tl ih =>
    obtain ⟨k1, v1⟩ := hd
    by_cases hk : k1 = k <;> simp [alookup, hk, ih]

theorem alookup_aupdate_self {l : List (κ × ν)} {k : κ} {v : ν} (w : ν)
    (h : alookup l k = some v) :
    alookup (aupdate l k w) k = some w := by
  induction l with
  | nil => simp [alookup] at h
  | cons hd tl ih =>
    obtain ⟨k1, v1⟩ := hd
    by_cases hk : k1 = k
    · subst hk
      simp [alookup, aupdate]
    · simp [alookup, aupdate, hk] at h ⊢
      exact ih h

theorem alookup_aupdate_of_ne {l : List (κ × ν)} {k k2 : κ} (w : ν) (h : k2 ≠ k) :
    alookup (aupdate l k w) k2 = alookup l k2 := by
  induction l with
  | nil => simp [aupdate]
  | cons hd tl ih =>
    obtain ⟨k1, v1⟩ := hd
    by_cases hk : k1 = k
    · subst hk
      have hne : k1 ≠ k2 := fun hh => h hh.symm
      simp [alookup, aupdate, hne]
    · simp [alookup, aupdate, hk, ih]

theorem mem_aupdate {l : List (κ × ν)} {k : κ} {w : ν} {kv : κ × ν}
    (h : kv ∈ aupdate l k w) : kv.2 = w ∨ kv ∈ l := by
  induction l with
  | nil => simp [aupdate] at h
  | cons hd tl ih =>
    obtain ⟨k1, v1⟩ := hd
    by_cases hk : k1 = k
    · subst hk
      simp [aupdate] at h
      rcases h with h | h
      · subst h; left; rfl
      · right; exact List.mem_cons_of_mem _ h
    · simp [aupdate, hk] at h
      rcases h with h | h
      · subst h; right; exact List.mem_cons_self _ _
      · rcases ih h with h2 | h2
        · left; exact h2
        · right; exact List.mem_cons_of_mem _ h2

theorem forall_mem_aupdate {P : ν → Prop} {l : List (κ × ν)} {k : κ} {w : ν}
    (hl : ∀ kv ∈ l, P kv.2) (hw : P w) : ∀ kv ∈ aupdate l k w, P kv.2 := by
  intro kv hkv
  rcases mem_aupdate hkv with h | h
  · rw [h]; exact hw
  · exact hl kv h

theorem sum_map_aupdate (f : ν → Nat) {l : List (κ × ν)} {k : κ} {v : ν} (w : ν)
    (h : alookup l k = some v) :
    ((aupdate l k w).map fun kv => f kv.2).sum + f v
      = (l.map fun kv => f kv.2).sum + f w := by
  induction l with
  | nil => simp [alookup] at h
  | cons hd tl ih =>
    obtain ⟨k1, v1⟩ := hd
    by_cases hk : k1 = k
    · subst hk
      simp [alookup] at h
      subst h
      simp [aupdate]
      omega
    · simp [alookup, hk] at h
      simp [aupdate, hk]
      have := ih h
      omega

end AssocLemmas

theorem sumConns_aupdate {l : List (DbUser × DbUserConnPool)} {k : DbUser}
    {v : DbUserConnPool} (w : DbUserConnPool) (h : alookup l k = some v) :
    (List.map (fun kv => kv.2.conns.length) (aupdate l k w)).sum + v.conns.length
      = (List.map (fun kv => kv.2.conns.length) l).sum + w.conns.length := by
  simpa using sum_map_aupdate (fun b => b.conns.length) w h

theorem popLast_concat {α : Type} (r : List α) (x : α) :
    popLast (r ++ [x]) = some (x, r) := by
  simp [popLast, List.getLast?_concat, List.dropLast_concat]

theorem filter_const_false {α : Type} (l : List α) :
    (l.filter fun _ => false) = [] := by
  induction l with
  | nil => rfl
  | cons hd tl ih => simp [List.filter, ih]

theorem goc_of_some {st : GlobalConnPool} {e : String} {ep : EndpointConnPool}
    (h : alookup st.global_pool e = some ep) :
    get_or_create_endpoint_pool st e = (st, ep) := by
  simp [get_or_create_endpoint_pool, h]

theorem goc_of_none {st : GlobalConnPool} {e : String}
    (h : alookup st.global_pool e = none) :
    get_or_create_endpoint_pool st e =
      ({ st with
          global_pool := st.global_pool ++ [(e, ⟨[], 0⟩)],
          global_pool_size := st.global_pool_size + 1 }, ⟨[], 0⟩) := by
  simp [get_or_create_endpoint_pool, h]

theorem goc_lookup (st : GlobalConnPool) (e : String) :
    alookup (get_or_create_endpoint_pool st e).1.global_pool e
      = some (get_or_create_endpoint_pool st e).2 := by
  cases h : alookup st.global_pool e with
  | some ep => rw [goc_of_some h]; exact h
  | none =>
    rw [goc_of_none h]
    simp [alookup_append, h, alookup]

theorem goc_closed (st : GlobalConnPool) (e : String) :
    (get_or_create_endpoint_pool st e).1.closed = st.closed := by
  cases h : alookup st.global_pool e with
  | some ep => rw [goc_of_some h]
  | none => rw [goc_of_none h]

theorem goc_max (st : GlobalConnPool) (e : String) :
    (get_or_create_endpoint_pool st e).1.max_conns_per_endpoint
      = st.max_conns_per_endpoint := by
  cases h : alookup st.global_pool e with
  | some ep => rw [goc_of_some h]
  | none => rw [goc_of_none h]

theorem goc_forall (P : EndpointConnPool → Prop) {st : GlobalConnPool} (e : String)
    (h : ∀ kv ∈ st.global_pool, P kv.2) (h0 : P ⟨[], 0⟩) :
    (∀ kv ∈ (get_or_create_endpoint_pool st e).1.global_pool, P kv.2)
      ∧ P (get_or_create_endpoint_pool st e).2 := by
  cases hl : alookup st.global_pool e with
  | some ep =>
    rw [goc_of_some hl]
    exact ⟨h, h (e, ep) (alookup_mem hl)⟩
  | none =>
    rw [goc_of_none hl]
    refine ⟨?_, h0⟩
    intro kv hkv
    rcases List.mem_append.1 hkv with h2 | h2
    · exact h kv h2
    · simp at h2
      rw [h2]
      exact h0

theorem we_forall (P : EndpointConnPool → Prop) {st : GlobalConnPool}
    (e : String) {ep : EndpointConnPool}
    (h : ∀ kv ∈ st.global_pool, P kv.2) (hep : P ep) :
    ∀ kv ∈ (writeEndpoint st e ep).global_pool, P kv.2 := by
  intro kv hkv
  rcases mem_aupdate hkv with h2 | h2
  · rw [h2]; exact hep
  · exact h kv h2

theorem bucketHash_goc (st : GlobalConnPool) (e : String) (h2 : String) (k2 : DbUser) :
    bucketHash (get_or_create_endpoint_pool st e).1 h2 k2 = bucketHash st h2 k2 := by
  cases hl : alookup st.global_pool e with
  | some ep => rw [goc_of_some hl]
  | none =>
    rw [goc_of_none hl]
    unfold bucketHash
    simp only [alookup_append]
    cases hl2 : alookup st.global_pool h2 with
    | some ep2 => simp
    | none =>
      by_cases he : e = h2
      · subst he
        rw [hl] at hl2
        simp [alookup]
      · simp [alookup, fun hh : e = h2 => he hh]

theorem popLast_eq_concat {α : Type} {l : List α} {x : α} {r : List α}
    (h : popLast l = some (x, r)) : l = r ++ [x] := by
  rcases l.eq_nil_or_concat' with h2 | ⟨l2, a, h2⟩
  · subst h2
    simp [popLast] at h
  · subst h2
    rw [popLast_concat] at h
    simp at h
    rw [h.1, h.2]

theorem bucketConns_of {st : GlobalConnPool} {host : String} {key : DbUser}
    {ep : EndpointConnPool} {b : DbUserConnPool}
    (hep : alookup st.global_pool host = some ep)
    (hb : alookup ep.pools key = some b) :
    bucketConns st host key = b.conns := by
  simp [bucketConns, hep, hb]

theorem hashValid_spec {st : GlobalConnPool} {info : ConnInfo}
    (h : hashValid st info = true) :
    ∃ ep b hsh, alookup st.global_pool info.hostname = some ep ∧
      alookup ep.pools info.db_and_user = some b ∧
      b.conns.isEmpty = false ∧ b.password_hash = some hsh ∧
      verifyPassword info.password hsh = true := by
  cases hep : alookup st.global_pool info.hostname with
  | none => simp [hashValid, peekedHash, hep] at h
  | some ep =>
    cases hb : alookup ep.pools info.db_and_user with
    | none => simp [hashValid, peekedHash, hep, hb] at h
    | some b =>
      cases hie : b.conns.isEmpty with
      | true => simp [hashValid, peekedHash, hep, hb, hie] at h
      | false =>
        cases hh : b.password_hash with
        | none => simp [hashValid, peekedHash, hep, hb, hie, hh] at h
        | some hsh =>
          simp [hashValid, peekedHash, hep, hb, hie, hh] at h
          exact ⟨ep, b, hsh, rfl, hb, hie, hh, h⟩

theorem acquirePeekPop_of_not_valid {st : GlobalConnPool} {info : ConnInfo}
    (h : hashValid st info = false) :
    acquirePeekPop st info
      = ((get_or_create_endpoint_pool st info.hostname).1, false, none) := by
  have hpeek :
      (match alookup (get_or_create_endpoint_pool st info.hostname).2.pools
          info.db_and_user with
        | some pe => if pe.conns.isEmpty then none else pe.password_hash
        | none => none) = peekedHash st info := by
    cases hep : alookup st.global_pool info.hostname with
    | some ep =>
      rw [goc_of_some hep]
      simp [peekedHash, hep]
    | none =>
      rw [goc_of_none hep]
      simp [peekedHash, hep, alookup]
  simp only [acquirePeekPop]
  rw [hpeek]
  cases hp : peekedHash st info with
  | none => simp
  | some hsh =>
    have hver : verifyPassword info.password hsh = false := by
      unfold hashValid at h
      rw [hp] at h
      exact h
    simp [hver]

theorem acquirePeekPop_pop {st : GlobalConnPool} {info : ConnInfo}
    {ep : EndpointConnPool} {b : DbUserConnPool} {hsh : HashString}
    (rest : List ConnPoolEntry) (entry : ConnPoolEntry)
    (hep : alookup st.global_pool info.hostname = some ep)
    (hb : alookup ep.pools info.db_and_user = some b)
    (hconns : b.conns = rest ++ [entry])
    (hhash : b.password_hash = some hsh)
    (hver : verifyPassword info.password hsh = true) :
    acquirePeekPop st info =
      (writeEndpoint st info.hostname
        { pools := aupdate ep.pools info.db_and_user { b with conns := rest },
          total_conns := ep.total_conns - 1 },
        true, some entry.conn) := by
  have hie : b.conns.isEmpty = false := by
    rw [hconns]; cases rest <;> rfl
  simp only [acquirePeekPop, goc_of_some hep, hb, hie, hhash, Bool.false_eq_true,
    if_false, hver, if_true]
  rw [hconns, popLast_concat]

theorem acquirePeekPop_cases (st : GlobalConnPool) (info : ConnInfo) :
    acquirePeekPop st info
        = ((get_or_create_endpoint_pool st info.hostname).1, false, none)
    ∨ ∃ ep b hsh rest entry,
        alookup st.global_pool info.hostname = some ep ∧
        alookup ep.pools info.db_and_user = some b ∧
        b.conns = rest ++ [entry] ∧ b.password_hash = some hsh ∧
        verifyPassword info.password hsh = true ∧
        acquirePeekPop st info =
          (writeEndpoint st info.hostname
            { pools := aupdate ep.pools info.db_and_user { b with conns := rest },
              total_conns := ep.total_conns - 1 },
            true, some entry.conn) := by
  cases hv : hashValid st info with
  | false => exact Or.inl (acquirePeekPop_of_not_valid hv)
  | true =>
    right
    obtain ⟨ep, b, hsh, hep, hb, hie, hh, hver⟩ := hashValid_spec hv
    rcases b.conns.eq_nil_or_concat' with h2 | ⟨rest, entry, h2⟩
    · rw [h2] at hie; simp at hie
    · exact ⟨ep, b, hsh, rest, entry, hep, hb, h2, hh, hver,
        acquirePeekPop_pop rest entry hep hb h2 hh hver⟩

theorem dialFinish_err_noclear {st : GlobalConnPool} {info : ConnInfo}
    {fn hv : Bool} {pr : Option ConnInfo} {hs : Except String Nat} {err : String}
    (h : (hv && strContains err "password authentication failed") = false) :
    dialFinish st info fn hv pr (Except.error err) hs = (st, Except.error err) := by
  simp [dialFinish, h]

theorem dialFinish_err_clear {st : GlobalConnPool} {info : ConnInfo}
    {fn : Bool} {pr : Option ConnInfo} {hs : Except String Nat} {err : String}
    {ep : EndpointConnPool} {b : DbUserConnPool}
    (hep : alookup st.global_pool info.hostname = some ep)
    (hb : alookup ep.pools info.db_and_user = some b)
    (hsub : strContains err "password authentication failed" = true) :
    dialFinish st info fn true pr (Except.error err) hs
      = (writeEndpoint st info.hostname
          { ep with
              pools := aupdate ep.pools info.db_and_user
                { b with password_hash := none } },
        Except.error err) := by
  simp [dialFinish, hsub, goc_of_some hep, hb]

theorem dialFinish_ok_nostore {st : GlobalConnPool} {info : ConnInfo}
    {fn hv : Bool} {pr : Option ConnInfo} {hs : Except String Nat} {c : ClientInner}
    (h : (!fn && !hv) = false) :
    dialFinish st info fn hv pr (Except.ok c) hs
      = (st, Except.ok (Client.new c pr)) := by
  simp [dialFinish, h]

theorem dialFinish_ok_store_err {st : GlobalConnPool} {info : ConnInfo}
    {pr : Option ConnInfo} {c : ClientInner} {e : String} :
    dialFinish st info false false pr (Except.ok c) (Except.error e)
      = (st, Except.error e) := by
  simp [dialFinish]

theorem dialFinish_ok_store {st : GlobalConnPool} {info : ConnInfo}
    {pr : Option ConnInfo} {c : ClientInner} {salt : Nat} :
    bucketHash (dialFinish st info false false pr (Except.ok c) (Except.ok salt)).1
        info.hostname info.db_and_user = some (pbkdf2Hash info.password salt)
    ∧ (dialFinish st info false false pr (Except.ok c) (Except.ok salt)).2
        = Except.ok (Client.new c pr) := by
  have hlk := goc_lookup st info.hostname
  cases hbk : alookup (get_or_create_endpoint_pool st info.hostname).2.pools
      info.db_and_user with
  | some entry =>
    constructor
    · simp only [dialFinish, Bool.not_false, Bool.and_self, if_true, hbk]
      unfold bucketHash writeEndpoint
      simp only
      rw [alookup_aupdate_self _ hlk]
      simp only
      rw [alookup_aupdate_self _ hbk]
    · simp [dialFinish, hbk]
  | none =>
    constructor
    · simp only [dialFinish, Bool.not_false, Bool.and_self, if_true, hbk]
      unfold bucketHash writeEndpoint
      simp only
      rw [alookup_aupdate_self _ hlk]
      simp only
      rw [alookup_append, hbk]
      simp [alookup]
    · simp [dialFinish, hbk]

theorem put_state_cases (st : GlobalConnPool) (info : ConnInfo) (c : ClientInner) :
    (put st info c).1 = st
    ∨ (put st info c).1 = (get_or_create_endpoint_pool st info.hostname).1
    ∨ ∃ ep, (put st info c).1
        = writeEndpoint (get_or_create_endpoint_pool st info.hostname).1
            info.hostname ep := by
  simp only [put]
  split
  · exact Or.inl rfl
  split
  · exact Or.inl rfl
  split
  · split
    · exact Or.inr (Or.inr ⟨_, rfl⟩)
    · exact Or.inr (Or.inl rfl)
  · exact Or.inr (Or.inl rfl)

theorem acquirePeekPop_state_cases (st : GlobalConnPool) (info : ConnInfo) :
    (acquirePeekPop st info).1 = (get_or_create_endpoint_pool st info.hostname).1
    ∨ ∃ ep, (acquirePeekPop st info).1
        = writeEndpoint (get_or_create_endpoint_pool st info.hostname).1
            info.hostname ep := by
  simp only [acquirePeekPop]
  split
  · exact Or.inl rfl
  split
  · split
    · split
      · exact Or.inr ⟨_, rfl⟩
      · exact Or.inl rfl
    · exact Or.inl rfl
  · exact Or.inl rfl

theorem dialFinish_state_cases (st : GlobalConnPool) (info : ConnInfo)
    (fn hv : Bool) (pr : Option ConnInfo) (dial : Except String ClientInner)
    (hs : Except String Nat) :
    (dialFinish st info fn hv pr dial hs).1 = st
    ∨ (dialFinish st info fn hv pr dial hs).1
        = (get_or_create_endpoint_pool st info.hostname).1
    ∨ ∃ ep, (dialFinish st info fn hv pr dial hs).1
        = writeEndpoint (get_or_create_endpoint_pool st info.hostname).1
            info.hostname ep := by
  simp only [dialFinish]
  split
  · split
    · split
      · exact Or.inr (Or.inr ⟨_, rfl⟩)
      · exact Or.inr (Or.inl rfl)
    · exact Or.inl rfl
  · split
    · split
      · exact Or.inl rfl
      · exact Or.inr (Or.inr ⟨_, rfl⟩)
    · exact Or.inl rfl

theorem writeEndpoint_closed (st : GlobalConnPool) (e : String) (ep : EndpointConnPool) :
    (writeEndpoint st e ep).closed = st.closed := rfl

theorem writeEndpoint_max (st : GlobalConnPool) (e : String) (ep : EndpointConnPool) :
    (writeEndpoint st e ep).max_conns_per_endpoint = st.max_conns_per_endpoint := rfl

theorem put_closed (st : GlobalConnPool) (info : ConnInfo) (c : ClientInner) :
    (put st info c).1.closed = st.closed := by
  rcases put_state_cases st info c with h | h | ⟨ep, h⟩ <;>
    simp [h, writeEndpoint_closed, goc_closed]

theorem put_max (st : GlobalConnPool) (info : ConnInfo) (c : ClientInner) :
    (put st info c).1.max_conns_per_endpoint = st.max_conns_per_endpoint := by
  rcases put_state_cases st info c with h | h | ⟨ep, h⟩ <;>
    simp [h, writeEndpoint_max, goc_max]

theorem acquirePeekPop_closed (st : GlobalConnPool) (info : ConnInfo) :
    (acquirePeekPop st info).1.closed = st.closed := by
  rcases acquirePeekPop_state_cases st info with h | ⟨ep, h⟩ <;>
    simp [h, writeEndpoint_closed, goc_closed]

theorem acquirePeekPop_max (st : GlobalConnPool) (info : ConnInfo) :
    (acquirePeekPop st info).1.max_conns_per_endpoint = st.max_conns_per_endpoint := by
  rcases acquirePeekPop_state_cases st info with h | ⟨ep, h⟩ <;>
    simp [h, writeEndpoint_max, goc_max]

theorem dialFinish_closed (st : GlobalConnPool) (info : ConnInfo)
    (fn hv : Bool) (pr : Option ConnInfo) (dial : Except String ClientInner)
    (hs : Except String Nat) :
    (dialFinish st info fn hv pr dial hs).1.closed = st.closed := by
  rcases dialFinish_state_cases st info fn hv pr dial hs with h | h | ⟨ep, h⟩ <;>
    simp [h, writeEndpoint_closed, goc_closed]

theorem dialFinish_max (st : GlobalConnPool) (info : ConnInfo)
    (fn hv : Bool) (pr : Option ConnInfo) (dial : Except String ClientInner)
    (hs : Except String Nat) :
    (dialFinish st info fn hv pr dial hs).1.max_conns_per_endpoint
      = st.max_conns_per_endpoint := by
  rcases dialFinish_state_cases st info fn hv pr dial hs with h | h | ⟨ep, h⟩ <;>
    simp [h, writeEndpoint_max, goc_max]

theorem get_closed (st : GlobalConnPool) (info : ConnInfo) (fn : Bool)
    (dial : Except String ClientInner) (hs : Except String Nat) :
    (get st info fn dial hs).1.closed = st.closed := by
  simp only [get]
  cases fn with
  | true =>
    simp only [if_true]
    rw [dialFinish_closed]
  | false =>
    simp only [Bool.false_eq_true, if_false]
    cases hc : (acquirePeekPop st info).2.2 with
    | none =>
      simp only
      rw [dialFinish_closed, acquirePeekPop_closed]
    | some c =>
      by_cases hcl : c.isClosed = true
      · simp only [hcl, if_true]
        rw [dialFinish_closed, acquirePeekPop_closed]
      · simp only [hcl, Bool.false_eq_true, if_false]
        rw [acquirePeekPop_closed]

theorem get_max (st : GlobalConnPool) (info : ConnInfo) (fn : Bool)
    (dial : Except String ClientInner) (hs : Except String Nat) :
    (get st info fn dial hs).1.max_conns_per_endpoint = st.max_conns_per_endpoint := by
  simp only [get]
  cases fn with
  | true =>
    simp only [if_true]
    rw [dialFinish_max]
  | false =>
    simp only [Bool.false_eq_true, if_false]
    cases hc : (acquirePeekPop st info).2.2 with
    | none =>
      simp only
      rw [dialFinish_max, acquirePeekPop_max]
    | some c =>
      by_cases hcl : c.isClosed = true
      · simp only [hcl, if_true]
        rw [dialFinish_max, acquirePeekPop_max]
      · simp only [hcl, Bool.false_eq_true, if_false]
        rw [acquirePeekPop_max]

theorem shutdown_CC (st : GlobalConnPool) : CounterConsistent (shutdown st) := by
  unfold CounterConsistent shutdown
  simp [filter_const_false]

theorem put_CC {st : GlobalConnPool} (info : ConnInfo) (c : ClientInner)
    (h : CounterConsistent st) : CounterConsistent (put st info c).1 := by
  unfold CounterConsistent at h ⊢
  obtain ⟨hall, hpool⟩ :=
    goc_forall (fun ep => ep.total_conns = sumConns ep) info.hostname h rfl
  simp only [put]
  split
  · exact h
  split
  · exact h
  split
  · split
    next pe hbk =>
      intro kv hkv
      refine we_forall (fun ep => ep.total_conns = sumConns ep) info.hostname hall ?_ kv hkv
      have hsum := sumConns_aupdate { pe with conns := pe.conns ++ [⟨c⟩] } hbk
      have hw : ({ pe with conns := pe.conns ++ [⟨c⟩] } : DbUserConnPool).conns.length
          = pe.conns.length + 1 := by simp
      simp only [sumConns] at hpool ⊢
      omega
    next hbk => exact hall
  · exact hall

theorem acquirePeekPop_CC {st : GlobalConnPool} (info : ConnInfo)
    (h : CounterConsistent st) : CounterConsistent (acquirePeekPop st info).1 := by
  unfold CounterConsistent at h ⊢
  obtain ⟨hall, hpool⟩ :=
    goc_forall (fun ep => ep.total_conns = sumConns ep) info.hostname h rfl
  rcases acquirePeekPop_cases st info with hcase |
    ⟨ep, b, hsh, rest, entry, hep, hb, hconns, hh, hver, hcase⟩
  · simp only [hcase]
    exact hall
  · simp only [hcase]
    intro kv hkv
    refine we_forall (fun e => e.total_conns = sumConns e) info.hostname h ?_ kv hkv
    have hsum := sumConns_aupdate { b with conns := rest } hb
    have hw : ({ b with conns := rest } : DbUserConnPool).conns.length = rest.length := by
      simp
    have hlen : b.conns.length = rest.length + 1 := by
      rw [hconns, List.length_append, List.length_cons, List.length_nil]
    have hepc : ep.total_conns = sumConns ep := h (info.hostname, ep) (alookup_mem hep)
    simp only [sumConns] at hepc ⊢
    omega

theorem dialFinish_CC {st : GlobalConnPool} (info : ConnInfo) (fn hv : Bool)
    (pr : Option ConnInfo) (dial : Except String ClientInner) (hs : Except String Nat)
    (h : CounterConsistent st) : CounterConsistent (dialFinish st info fn hv pr dial hs).1 := by
  unfold CounterConsistent at h ⊢
  obtain ⟨hall, hpool⟩ :=
    goc_forall (fun ep => ep.total_conns = sumConns ep) info.hostname h rfl
  simp only [dialFinish]
  split
  · split
    · split
      next entry hbk =>
        intro kv hkv
        refine we_forall (fun e => e.total_conns = sumConns e) info.hostname hall ?_ kv hkv
        have hsum := sumConns_aupdate { entry with password_hash := none } hbk
        have hw : ({ entry with password_hash := none } : DbUserConnPool).conns.length
            = entry.conns.length := by simp
        simp only [sumConns] at hpool ⊢
        omega
      next hbk => exact hall
    · exact h
  · split
    · split
      · exact h
      next salt =>
        split
        next entry hbk =>
          intro kv hkv
          refine we_forall (fun e => e.total_conns = sumConns e) info.hostname hall ?_ kv hkv
          have hsum := sumConns_aupdate
            { entry with password_hash := some (pbkdf2Hash info.password salt) } hbk
          have hw : ({ entry with password_hash := some (pbkdf2Hash info.password salt) }
              : DbUserConnPool).conns.length = entry.conns.length := by simp
          simp only [sumConns] at hpool ⊢
          omega
        next hbk =>
          intro kv hkv
          refine we_forall (fun e => e.total_conns = sumConns e) info.hostname hall ?_ kv hkv
          simp only [sumConns] at hpool ⊢
          simp only [List.map_append, List.sum_append, List.map_cons, List.map_nil,
            List.sum_cons, List.sum_nil, List.length_nil]
          omega
    · exact h

theorem get_CC {st : GlobalConnPool} (info : ConnInfo) (fn : Bool)
    (dial : Except String ClientInner) (hs : Except String Nat)
    (h : CounterConsistent st) : CounterConsistent (get st info fn dial hs).1 := by
  simp only [get]
  cases fn with
  | true =>
    simp only [if_true]
    exact dialFinish_CC _ _ _ _ _ _ h
  | false =>
    simp only [Bool.false_eq_true, if_false]
    have hpp := acquirePeekPop_CC info h
    cases hc : (acquirePeekPop st info).2.2 with
    | none =>
      simp only
      exact dialFinish_CC _ _ _ _ _ _ hpp
    | some c =>
      by_cases hcl : c.isClosed = true
      · simp only [hcl, if_true]
        exact dialFinish_CC _ _ _ _ _ _ hpp
      · simp only [hcl, Bool.false_eq_true, if_false]
        exact hpp

theorem put_Cap {st : GlobalConnPool} (info : ConnInfo) (c : ClientInner)
    (hcc : CounterConsistent st) (hcap : CapacityBounded st) :
    CapacityBounded (put st info c).1 := by
  unfold CapacityBounded at hcap ⊢
  unfold CounterConsistent at hcc
  simp only [put_max]
  obtain ⟨hallc, hpoolc⟩ :=
    goc_forall (fun ep => ep.total_conns = sumConns ep) info.hostname hcc rfl
  obtain ⟨hall, hpool⟩ :=
    goc_forall (fun ep => sumConns ep ≤ st.max_conns_per_endpoint) info.hostname hcap
      (by simp [sumConns])
  simp only [put]
  split
  · exact hcap
  split
  · exact hcap
  split
  next hlt =>
    split
    next pe hbk =>
      intro kv hkv
      refine we_forall (fun ep => sumConns ep ≤ st.max_conns_per_endpoint)
        info.hostname hall ?_ kv hkv
      have hsum := sumConns_aupdate { pe with conns := pe.conns ++ [⟨c⟩] } hbk
      have hw : ({ pe with conns := pe.conns ++ [⟨c⟩] } : DbUserConnPool).conns.length
          = pe.conns.length + 1 := by simp
      have hmax := goc_max st info.hostname
      simp only [sumConns] at hpoolc ⊢
      omega
    next hbk => exact hall
  · exact hall

theorem acquirePeekPop_Cap {st : GlobalConnPool} (info : ConnInfo)
    (hcap : CapacityBounded st) : CapacityBounded (acquirePeekPop st info).1 := by
  unfold CapacityBounded at hcap ⊢
  simp only [acquirePeekPop_max]
  rcases acquirePeekPop_cases st info with hcase |
    ⟨ep, b, hsh, rest, entry, hep, hb, hconns, hh, hver, hcase⟩
  · simp only [hcase]
    exact (goc_forall (fun ep => sumConns ep ≤ st.max_conns_per_endpoint)
      info.hostname hcap (by simp [sumConns])).1
  · simp only [hcase]
    intro kv hkv
    refine we_forall (fun e => sumConns e ≤ st.max_conns_per_endpoint)
      info.hostname hcap ?_ kv hkv
    have hsum := sumConns_aupdate { b with conns := rest } hb
    have hw : ({ b with conns := rest } : DbUserConnPool).conns.length = rest.length := by
      simp
    have hlen : b.conns.length = rest.length + 1 := by
      rw [hconns, List.length_append, List.length_cons, List.length_nil]
    have hepc : sumConns ep ≤ st.max_conns_per_endpoint :=
      hcap (info.hostname, ep) (alookup_mem hep)
    simp only [sumConns] at hepc ⊢
    omega

theorem dialFinish_Cap {st : GlobalConnPool} (info : ConnInfo) (fn hv : Bool)
    (pr : Option ConnInfo) (dial : Except String ClientInner) (hs : Except String Nat)
    (hcap : CapacityBounded st) : CapacityBounded (dialFinish st info fn hv pr dial hs).1 := by
  unfold CapacityBounded at hcap ⊢
  simp only [dialFinish_max]
  obtain ⟨hall, hpool⟩ :=
    goc_forall (fun ep => sumConns ep ≤ st.max_conns_per_endpoint) info.hostname hcap
      (by simp [sumConns])
  simp only [dialFinish]
  split
  · split
    · split
      next entry hbk =>
        intro kv hkv
        refine we_forall (fun e => sumConns e ≤ st.max_conns_per_endpoint)
          info.hostname hall ?_ kv hkv
        have hsum := sumConns_aupdate { entry with password_hash := none } hbk
        have hw : ({ entry with password_hash := none } : DbUserConnPool).conns.length
            = entry.conns.length := by simp
        have hepc : sumConns (get_or_create_endpoint_pool st info.hostname).2
            ≤ st.max_conns_per_endpoint := hpool
        simp only [sumConns] at hepc ⊢
        omega
      next hbk => exact hall
    · exact hcap
  · split
    · split
      · exact hcap
      next salt =>
        split
        next entry hbk =>
          intro kv hkv
          refine we_forall (fun e => sumConns e ≤ st.max_conns_per_endpoint)
            info.hostname hall ?_ kv hkv
          have hsum := sumConns_aupdate
            { entry with password_hash := some (pbkdf2Hash info.password salt) } hbk
          have hw : ({ entry with password_hash := some (pbkdf2Hash info.password salt) }
              : DbUserConnPool).conns.length = entry.conns.length := by simp
          have hepc : sumConns (get_or_create_endpoint_pool st info.hostname).2
              ≤ st.max_conns_per_endpoint := hpool
          simp only [sumConns] at hepc ⊢
          omega
        next hbk =>
          intro kv hkv
          refine we_forall (fun e => sumConns e ≤ st.max_conns_per_endpoint)
            info.hostname hall ?_ kv hkv
          simp only [sumConns] at hpool ⊢
          simp only [List.map_append, List.sum_append, List.map_cons, List.map_nil,
            List.sum_cons, List.sum_nil, List.length_nil]
          omega
    · exact hcap

theorem get_Cap {st : GlobalConnPool} (info : ConnInfo) (fn : Bool)
    (dial : Except String ClientInner) (hs : Except String Nat)
    (hcap : CapacityBounded st) : CapacityBounded (get st info fn dial hs).1 := by
  simp only [get]
  cases fn with
  | true =>
    simp only [if_true]
    exact dialFinish_Cap _ _ _ _ _ _ hcap
  | false =>
    simp only [Bool.false_eq_true, if_false]
    have hpp := acquirePeekPop_Cap info hcap
    cases hc : (acquirePeekPop st info).2.2 with
    | none =>
      simp only
      exact dialFinish_Cap _ _ _ _ _ _ hpp
    | some c =>
      by_cases hcl : c.isClosed = true
      · simp only [hcl, if_true]
        exact dialFinish_Cap _ _ _ _ _ _ hpp
      · simp only [hcl, Bool.false_eq_true, if_false]
        exact hpp

theorem shutdown_Cap (st : GlobalConnPool) : CapacityBounded (shutdown st) := by
  unfold CapacityBounded shutdown
  simp [filter_const_false]

theorem get_eq_of_pop {st : GlobalConnPool} {info : ConnInfo} {stp : GlobalConnPool}
    {hv : Bool} {c : ClientInner}
    (hpp : acquirePeekPop st info = (stp, hv, some c))
    (dial : Except String ClientInner) (hs : Except String Nat) :
    get st info false dial hs =
      if c.isClosed then dialFinish stp info false hv (some info) dial hs
      else (stp, Except.ok (Client.new c (some info))) := by
  simp only [get, Bool.false_eq_true, if_false, hpp]

theorem get_eq_of_nopop {st : GlobalConnPool} {info : ConnInfo} {stp : GlobalConnPool}
    {hv : Bool}
    (hpp : acquirePeekPop st info = (stp, hv, none))
    (dial : Except String ClientInner) (hs : Except String Nat) :
    get st info false dial hs = dialFinish stp info false hv (some info) dial hs := by
  simp only [get, Bool.false_eq_true, if_false, hpp]

theorem bucketHash_writeEndpoint_samehash {st : GlobalConnPool} {host : String}
    {key : DbUser} {ep : EndpointConnPool} {b b1 : DbUserConnPool}
    (hep : alookup st.global_pool host = some ep)
    (hb : alookup ep.pools key = some b)
    (hh : b1.password_hash = b.password_hash)
    (t : Nat) (h2 : String) (k2 : DbUser) :
    bucketHash
        (writeEndpoint st host { pools := aupdate ep.pools key b1, total_conns := t })
        h2 k2
      = bucketHash st h2 k2 := by
  unfold bucketHash writeEndpoint
  by_cases hhost : h2 = host
  · subst hhost
    rw [alookup_aupdate_self _ hep, hep]
    simp only
    by_cases hk : k2 = key
    · subst hk
      rw [alookup_aupdate_self _ hb, hb]
      exact hh
    · rw [alookup_aupdate_of_ne _ hk]
  · rw [alookup_aupdate_of_ne _ hhost]

theorem put_returned_conns {st : GlobalConnPool} {info : ConnInfo} {c : ClientInner}
    (h : (put st info c).2 = true) :
    bucketConns (put st info c).1 info.hostname info.db_and_user
      = bucketConns st info.hostname info.db_and_user ++ [⟨c⟩] := by
  by_cases hcl : st.closed = true
  · simp [put, hcl] at h
  by_cases hcc : c.isClosed = true
  · simp [put, hcl, hcc] at h
  cases hep : alookup st.global_pool info.hostname with
  | none =>
    exfalso
    by_cases h0 : (0 : Nat) < st.max_conns_per_endpoint <;>
      simp [put, hcl, hcc, goc_of_none hep, alookup, h0] at h
  | some ep =>
    by_cases hlt : ep.total_conns < st.max_conns_per_endpoint
    · cases hbk : alookup ep.pools info.db_and_user with
      | none => simp [put, hcl, hcc, goc_of_some hep, hlt, hbk] at h
      | some pe =>
        have hput : put st info c = (writeEndpoint st info.hostname
            { pools := aupdate ep.pools info.db_and_user
                { pe with conns := pe.conns ++ [⟨c⟩] },
              total_conns := ep.total_conns + 1 }, true) := by
          simp [put, hcl, hcc, goc_of_some hep, hlt, hbk]
        rw [hput]
        unfold bucketConns writeEndpoint
        simp only
        rw [alookup_aupdate_self _ hep, hep]
        simp only
        rw [alookup_aupdate_self _ hbk, hbk]
    · simp [put, hcl, hcc, goc_of_some hep, hlt] at h

/-! Concrete states and inputs used by counterexamples and witnesses. -/

/-- A sample request: user `user`, database `db`, endpoint `host`, password `pw`. -/
def exInfo : ConnInfo :=
  ⟨"user", "db", "host", "pw", none⟩

def exConnA : ClientInner := ⟨1, false⟩

def exConnB : ClientInner := ⟨2, false⟩

def exConnNew : ClientInner := ⟨3, false⟩

def exConnClosed : ClientInner := ⟨4, true⟩

/-- A bucket holding one idle connection and the cached hash of `pw`. -/
def exBucket : DbUserConnPool := ⟨[⟨exConnA⟩], some (pbkdf2Hash "pw" 0)⟩

def exEp : EndpointConnPool := ⟨[(("db", "user"), exBucket)], 1⟩

/-- A populated open pool: one endpoint, one bucket, one idle connection. -/
def exSt : GlobalConnPool := ⟨[("host", exEp)], 1, 20, false⟩

/-- An empty open pool. -/
def exStEmpty : GlobalConnPool := ⟨[], 0, 20, false⟩

/-- Like `exSt` but the idle connection is closed (forces the dial on reuse). -/
def exBucketC : DbUserConnPool := ⟨[⟨exConnClosed⟩], some (pbkdf2Hash "pw" 0)⟩

def exEpC : EndpointConnPool := ⟨[(("db", "user"), exBucketC)], 1⟩

def exStC : GlobalConnPool := ⟨[("host", exEpC)], 1, 20, false⟩

/-- Like `exSt` but the bucket is empty (hash only). -/
def exBucketH : DbUserConnPool := ⟨[], some (pbkdf2Hash "pw" 0)⟩

def exEpH : EndpointConnPool := ⟨[(("db", "user"), exBucketH)], 0⟩

def exStH : GlobalConnPool := ⟨[("host", exEpH)], 1, 20, false⟩

/-- A dial error carrying the authentication-denied marker. -/
def exErr : String := "db error: FATAL: password authentication failed for user"

/-- A `ConnInfo` whose password coincides with its username. -/
def exInfoLeak : ConnInfo :=
  ⟨"alice", "db", "host", "alice", none⟩

/-- C9 (counterexample): the claim asserts that the password substring never
appears in the display rendering; for a `ConnInfo` whose password equals its
username the rendering `alice@host/db` does contain the password substring. -/
theorem C9_counterexample :
    strContains (connInfoDisplay exInfoLeak) exInfoLeak.password = true
    ∧ connInfoDisplay exInfoLeak = "alice@host/db" := by
  decide

/-- C9 (amended): the display rendering of `ConnInfo` is exactly
`username@hostname/dbname` and does not depend on the password field — any two
values differing only in the password render identically — so the password
substring appears in the rendering only when it already occurs in
`username@hostname/dbname`. -/
theorem C9_display_no_password (c : ConnInfo) (p : String) :
    connInfoDisplay c = c.username ++ "@" ++ c.hostname ++ "/" ++ c.dbname
    ∧ connInfoDisplay { c with password := p } = connInfoDisplay c
    ∧ strContains (connInfoDisplay c) c.password
        = strContains (c.username ++ "@" ++ c.hostname ++ "/" ++ c.dbname) c.password :=
  ⟨rfl, rfl, rfl⟩

/-- C10: after `check_idle(status)` with `status ≠ Idle`, the lease's
back-reference is taken, and the subsequent drop returns the state unchanged
(no enqueue anywhere); `check_idle(Idle)` leaves the lease unchanged. -/
theorem C10_non_idle_discard (cl : Client) (status : ReadyForQueryStatus)
    (st : GlobalConnPool) (hne : status ≠ ReadyForQueryStatus.Idle) :
    (checkIdle cl status).pool = none
    ∧ dropClient st (checkIdle cl status) = st
    ∧ checkIdle cl ReadyForQueryStatus.Idle = cl := by
  refine ⟨by simp [checkIdle, hne], by simp [checkIdle, hne, dropClient], by simp [checkIdle]⟩

theorem C10_non_idle_discard_witness :
    (ReadyForQueryStatus.InTransaction ≠ ReadyForQueryStatus.Idle)
    ∧ ((checkIdle (Client.new exConnA (some exInfo))
          ReadyForQueryStatus.InTransaction).pool = none
      ∧ dropClient exSt (checkIdle (Client.new exConnA (some exInfo))
          ReadyForQueryStatus.InTransaction) = exSt
      ∧ checkIdle (Client.new exConnA (some exInfo)) ReadyForQueryStatus.Idle
          = Client.new exConnA (some exInfo)) :=
  ⟨by decide,
    C10_non_idle_discard (Client.new exConnA (some exInfo))
      ReadyForQueryStatus.InTransaction exSt (by decide)⟩

/-- C1 (counterexample): for `force_new = true` no hash is read and nothing is
popped (the state is unchanged), but — contrary to the claim — the returned
lease carries no back-reference, so dropping it does NOT return the connection
to the pool: the pool state after the drop is the original one and the dialed
connection sits in no bucket. -/
theorem C1_counterexample :
    (get exSt exInfo true (Except.ok exConnNew) (Except.ok 0)).2
        = Except.ok (Client.new exConnNew none)
    ∧ (Client.new exConnNew none).pool = none
    ∧ dropClient (get exSt exInfo true (Except.ok exConnNew) (Except.ok 0)).1
        (Client.new exConnNew none) = exSt
    ∧ bucketConns (dropClient (get exSt exInfo true (Except.ok exConnNew) (Except.ok 0)).1
        (Client.new exConnNew none)) "host" ("db", "user") = [⟨exConnA⟩] :=
  ⟨rfl, rfl, rfl, rfl⟩

/-- C1 (amended): an acquire with `force_new = true` reads no hash, computes no
hash (the hashing oracle is never consulted), pops nothing (the state is
returned unchanged), and yields a lease whose back-reference is `None`, so its
drop returns the connection to no pool (the drop leaves any state unchanged). -/
theorem C1_force_new_isolation (st st2 : GlobalConnPool) (info : ConnInfo)
    (dial : Except String ClientInner) (hs hs2 : Except String Nat) :
    get st info true dial hs = (st,
      match dial with
      | Except.ok c => Except.ok (Client.new c none)
      | Except.error e => Except.error e)
    ∧ get st info true dial hs = get st info true dial hs2
    ∧ (match dial with
       | Except.ok c => dropClient st2 (Client.new c none) = st2
       | Except.error _ => True) := by
  refine ⟨?_, ?_, ?_⟩ <;> cases dial <;>
    simp [get, dialFinish, dropClient, Client.new]

/-- C2 (counterexample): all of the claim's preconditions hold — the pool is
open, the connection is not closed, and `total_conns` (0) is below the
maximum — yet `put` does not create the missing bucket: the connection is not
returned, no bucket appears, and no counter is incremented. -/
theorem C2_counterexample :
    exStEmpty.closed = false
    ∧ exConnNew.isClosed = false
    ∧ endpointTotal exStEmpty "host" < exStEmpty.max_conns_per_endpoint
    ∧ (put exStEmpty exInfo exConnNew).2 = false
    ∧ bucketConns (put exStEmpty exInfo exConnNew).1 "host" ("db", "user") = []
    ∧ endpointTotal (put exStEmpty exInfo exConnNew).1 "host" = 0 := by
  decide

/-- C2 (amended): `put` requires the bucket to pre-exist.  With the pool open,
the connection not closed, the endpoint pool present and `total_conns` below
the maximum: if the `(dbname, username)` bucket exists, `put` pushes the
connection on top of it and increments `total_conns`; if it does not exist,
the connection is discarded and the state is unchanged. -/
theorem C2_put_requires_bucket (st : GlobalConnPool) (info : ConnInfo)
    (c : ClientInner) (ep : EndpointConnPool)
    (hopen : st.closed = false) (hc : c.isClosed = false)
    (hep : alookup st.global_pool info.hostname = some ep)
    (hlt : ep.total_conns < st.max_conns_per_endpoint) :
    match alookup ep.pools info.db_and_user with
    | some b =>
        (put st info c).2 = true
        ∧ bucketConns (put st info c).1 info.hostname info.db_and_user
            = b.conns ++ [⟨c⟩]
        ∧ endpointTotal (put st info c).1 info.hostname = ep.total_conns + 1
    | none => (put st info c).2 = false ∧ (put st info c).1 = st := by
  cases hbk : alookup ep.pools info.db_and_user with
  | some b =>
    simp only
    have hput : put st info c = (writeEndpoint st info.hostname
        { pools := aupdate ep.pools info.db_and_user
            { b with conns := b.conns ++ [⟨c⟩] },
          total_conns := ep.total_conns + 1 }, true) := by
      simp [put, hopen, hc, goc_of_some hep, hlt, hbk]
    refine ⟨by rw [hput], ?_, ?_⟩
    · rw [hput]
      unfold bucketConns writeEndpoint
      simp only
      rw [alookup_aupdate_self _ hep]
      simp only
      rw [alookup_aupdate_self _ hbk]
    · rw [hput]
      unfold endpointTotal writeEndpoint
      simp only
      rw [alookup_aupdate_self _ hep]
  | none =>
    simp only
    constructor <;> simp [put, hopen, hc, goc_of_some hep, hlt, hbk]

theorem C2_put_requires_bucket_witness :
    (exSt.closed = false ∧ exConnNew.isClosed = false
      ∧ alookup exSt.global_pool exInfo.hostname = some exEp
      ∧ exEp.total_conns < exSt.max_conns_per_endpoint)
    ∧ (match alookup exEp.pools exInfo.db_and_user with
       | some b =>
           (put exSt exInfo exConnNew).2 = true
           ∧ bucketConns (put exSt exInfo exConnNew).1 exInfo.hostname exInfo.db_and_user
               = b.conns ++ [⟨exConnNew⟩]
           ∧ endpointTotal (put exSt exInfo exConnNew).1 exInfo.hostname
               = exEp.total_conns + 1
       | none => (put exSt exInfo exConnNew).2 = false
           ∧ (put exSt exInfo exConnNew).1 = exSt) :=
  ⟨⟨rfl, rfl, by decide, by decide⟩,
    C2_put_requires_bucket exSt exInfo exConnNew exEp rfl rfl (by decide) (by decide)⟩

/-- C3: if the cached hash verified (`hash_valid` true) and the dial taken
after popping a closed cached connection fails with an error containing
`password authentication failed`, the bucket's stored hash is cleared before
the acquire returns; in every other dial-failure case every stored hash is
left unchanged. -/
theorem C3_auth_failure_clears_hash (st : GlobalConnPool) (info : ConnInfo)
    (err : String) (hs : Except String Nat) (entry : ConnPoolEntry)
    (rest : List ConnPoolEntry) :
    (hashValid st info = true →
      strContains err "password authentication failed" = true →
      bucketConns st info.hostname info.db_and_user = rest ++ [entry] →
      entry.conn.isClosed = true →
      bucketHash (get st info false (Except.error err) hs).1
        info.hostname info.db_and_user = none)
    ∧ (¬(hashValid st info = true
          ∧ strContains err "password authentication failed" = true) →
       ∀ h2 k2, bucketHash (get st info false (Except.error err) hs).1 h2 k2
          = bucketHash st h2 k2) := by
  constructor
  · intro hv hsub hconns hcl
    obtain ⟨ep, b, hsh, hep, hb, hie, hh, hver⟩ := hashValid_spec hv
    have hbc : b.conns = rest ++ [entry] := by
      rw [← bucketConns_of hep hb]
      exact hconns
    have hpp := acquirePeekPop_pop rest entry hep hb hbc hh hver
    rw [get_eq_of_pop hpp]
    rw [if_pos hcl]
    have hep1 : alookup (aupdate st.global_pool info.hostname
        { pools := aupdate ep.pools info.db_and_user { b with conns := rest },
          total_conns := ep.total_conns - 1 }) info.hostname
        = some { pools := aupdate ep.pools info.db_and_user { b with conns := rest },
                 total_conns := ep.total_conns - 1 } :=
      alookup_aupdate_self _ hep
    have hb1 : alookup (aupdate ep.pools info.db_and_user { b with conns := rest })
        info.db_and_user = some { b with conns := rest } :=
      alookup_aupdate_self _ hb
    rw [dialFinish_err_clear hep1 hb1 hsub]
    unfold bucketHash writeEndpoint
    simp only
    rw [alookup_aupdate_self _ hep1]
    simp only
    rw [alookup_aupdate_self _ hb1]
  · intro hnand h2 k2
    cases hv : hashValid st info with
    | false =>
      have hpp := acquirePeekPop_of_not_valid hv
      rw [get_eq_of_nopop hpp]
      have hno : (false && strContains err "password authentication failed") = false := by
        simp
      rw [dialFinish_err_noclear hno]
      exact bucketHash_goc st info.hostname h2 k2
    | true =>
      have hsub : strContains err "password authentication failed" = false := by
        cases hsubc : strContains err "password authentication failed" with
        | true => exact absurd ⟨hv, hsubc⟩ hnand
        | false => rfl
      obtain ⟨ep, b, hsh, hep, hb, hie, hh, hver⟩ := hashValid_spec hv
      rcases b.conns.eq_nil_or_concat' with hnil | ⟨rest2, entry2, hconc⟩
      · rw [hnil] at hie
        simp at hie
      · have hpp := acquirePeekPop_pop rest2 entry2 hep hb hconc hh hver
        rw [get_eq_of_pop hpp]
        have hpres := bucketHash_writeEndpoint_samehash hep hb
          (show ({ b with conns := rest2 } : DbUserConnPool).password_hash
              = b.password_hash from rfl) (ep.total_conns - 1) h2 k2
        by_cases hcl : entry2.conn.isClosed = true
        · rw [if_pos hcl]
          have hno : (true && strContains err "password authentication failed")
              = false := by simp [hsub]
          rw [dialFinish_err_noclear hno]
          exact hpres
        · rw [if_neg hcl]
          exact hpres

theorem C3_auth_failure_clears_hash_witness :
    (hashValid exStC exInfo = true
      ∧ strContains exErr "password authentication failed" = true
      ∧ bucketConns exStC exInfo.hostname exInfo.db_and_user = [] ++ [⟨exConnClosed⟩]
      ∧ exConnClosed.isClosed = true)
    ∧ bucketHash (get exStC exInfo false (Except.error exErr) (Except.ok 0)).1
        exInfo.hostname exInfo.db_and_user = none :=
  ⟨⟨by decide, by decide, by decide, rfl⟩,
    (C3_auth_failure_clears_hash exStC exInfo exErr (Except.ok 0) ⟨exConnClosed⟩ []).1
      (by decide) (by decide) (by decide) rfl⟩

/-- C4: for an acquire with `force_new = false` in which no cached hash
verified and the dial succeeds, the PBKDF2 hash of the supplied password is
stored into the bucket (created if absent) and the lease is returned; if the
hashing task fails instead, its error is surfaced to the caller. -/
theorem C4_hash_stored_on_success (st : GlobalConnPool) (info : ConnInfo)
    (c : ClientInner) (salt : Nat) (e : String)
    (hv : hashValid st info = false) :
    (get st info false (Except.ok c) (Except.ok salt)).2
        = Except.ok (Client.new c (some info))
    ∧ bucketHash (get st info false (Except.ok c) (Except.ok salt)).1
        info.hostname info.db_and_user = some (pbkdf2Hash info.password salt)
    ∧ (get st info false (Except.ok c) (Except.error e)).2 = Except.error e := by
  have hpp := acquirePeekPop_of_not_valid hv
  refine ⟨?_, ?_, ?_⟩
  · rw [get_eq_of_nopop hpp]
    exact dialFinish_ok_store.2
  · rw [get_eq_of_nopop hpp]
    exact dialFinish_ok_store.1
  · rw [get_eq_of_nopop hpp]
    rw [dialFinish_ok_store_err]

theorem C4_hash_stored_on_success_witness :
    hashValid exStEmpty exInfo = false
    ∧ ((get exStEmpty exInfo false (Except.ok exConnNew) (Except.ok 7)).2
        = Except.ok (Client.new exConnNew (some exInfo))
      ∧ bucketHash (get exStEmpty exInfo false (Except.ok exConnNew) (Except.ok 7)).1
          exInfo.hostname exInfo.db_and_user = some (pbkdf2Hash exInfo.password 7)
      ∧ (get exStEmpty exInfo false (Except.ok exConnNew) (Except.error "join error")).2
          = Except.error "join error") :=
  ⟨rfl, C4_hash_stored_on_success exStEmpty exInfo exConnNew 7 "join error" rfl⟩

/-- C5: the capacity bound `idle_connections ≤ max_conns_per_endpoint` holds
at every quiescent point — it holds in the fresh pool and is preserved by
`put`, `get` and `shutdown` — and `put` pushes only while `total_conns` is
below the maximum: at capacity it discards the connection, leaving the state
unchanged. -/
theorem C5_capacity_bound (st : GlobalConnPool) (info : ConnInfo) (c : ClientInner)
    (fn : Bool) (dial : Except String ClientInner) (hs : Except String Nat)
    (ep : EndpointConnPool)
    (hcc : CounterConsistent st) (hcap : CapacityBounded st) :
    CapacityBounded GlobalConnPool.new
    ∧ CapacityBounded (put st info c).1
    ∧ CapacityBounded (get st info fn dial hs).1
    ∧ CapacityBounded (shutdown st)
    ∧ (alookup st.global_pool info.hostname = some ep →
        st.max_conns_per_endpoint ≤ ep.total_conns →
        put st info c = (st, false)) := by
  refine ⟨?_, put_Cap info c hcc hcap, get_Cap info fn dial hs hcap, shutdown_Cap st, ?_⟩
  · intro kv hkv
    simp [GlobalConnPool.new] at hkv
  · intro hep hge
    by_cases hcl : st.closed = true
    · simp [put, hcl]
    · by_cases hcc2 : c.isClosed = true
      · simp [put, hcl, hcc2]
      · have hnlt : ¬ (ep.total_conns < st.max_conns_per_endpoint) := Nat.not_lt.2 hge
        simp [put, hcl, hcc2, goc_of_some hep, hnlt]

theorem C5_capacity_bound_witness :
    (CounterConsistent exSt ∧ CapacityBounded exSt)
    ∧ (CapacityBounded GlobalConnPool.new
      ∧ CapacityBounded (put exSt exInfo exConnNew).1
      ∧ CapacityBounded (get exSt exInfo false (Except.ok exConnNew) (Except.ok 0)).1
      ∧ CapacityBounded (shutdown exSt)
      ∧ (alookup exSt.global_pool exInfo.hostname = some exEp →
          exSt.max_conns_per_endpoint ≤ exEp.total_conns →
          put exSt exInfo exConnNew = (exSt, false))) := by
  have hcc : CounterConsistent exSt := by
    unfold CounterConsistent
    decide
  have hcap : CapacityBounded exSt := by
    unfold CapacityBounded
    decide
  exact ⟨⟨hcc, hcap⟩, C5_capacity_bound exSt exInfo exConnNew false
    (Except.ok exConnNew) (Except.ok 0) exEp hcc hcap⟩

/-- C6: counter consistency — every endpoint's `total_conns` equals the sum of
its bucket stack lengths — holds in the fresh pool and is preserved by the
acquire path (its pop), by `put` (its push) and by `shutdown` (its cleanup). -/
theorem C6_counter_consistency (st : GlobalConnPool) (info : ConnInfo) (c : ClientInner)
    (fn : Bool) (dial : Except String ClientInner) (hs : Except String Nat)
    (h : CounterConsistent st) :
    CounterConsistent GlobalConnPool.new
    ∧ CounterConsistent (put st info c).1
    ∧ CounterConsistent (get st info fn dial hs).1
    ∧ CounterConsistent (shutdown st) := by
  refine ⟨?_, put_CC info c h, get_CC info fn dial hs h, shutdown_CC st⟩
  intro kv hkv
  simp [GlobalConnPool.new] at hkv

theorem C6_counter_consistency_witness :
    CounterConsistent exSt
    ∧ (CounterConsistent GlobalConnPool.new
      ∧ CounterConsistent (put exSt exInfo exConnNew).1
      ∧ CounterConsistent (get exSt exInfo false (Except.ok exConnNew) (Except.ok 0)).1
      ∧ CounterConsistent (shutdown exSt)) := by
  have hcc : CounterConsistent exSt := by
    unfold CounterConsistent
    decide
  exact ⟨hcc, C6_counter_consistency exSt exInfo exConnNew false
    (Except.ok exConnNew) (Except.ok 0) hcc⟩

/-- C7: after `shutdown()` the global map holds no endpoint entries (hence no
idle connections anywhere) and the `closed` flag is set; any `put` against a
closed pool returns the state unchanged without pooling the connection; and no
operation ever resets `closed`, so this applies to every subsequent `put`. -/
theorem C7_shutdown_drains (st st2 : GlobalConnPool) (info : ConnInfo)
    (c : ClientInner) (h : st2.closed = true) :
    (shutdown st).global_pool = []
    ∧ (shutdown st).closed = true
    ∧ put st2 info c = (st2, false)
    ∧ (∀ st3 i3 c3, (put st3 i3 c3).1.closed = st3.closed)
    ∧ (∀ st3 i3 fn d hs2, (get st3 i3 fn d hs2).1.closed = st3.closed) := by
  refine ⟨?_, rfl, ?_, fun st3 i3 c3 => put_closed st3 i3 c3,
    fun st3 i3 fn d hs2 => get_closed st3 i3 fn d hs2⟩
  · unfold shutdown
    simp [filter_const_false]
  · simp [put, h]

theorem C7_shutdown_drains_witness :
    (shutdown exSt).closed = true
    ∧ ((shutdown exSt).global_pool = []
      ∧ (shutdown exSt).closed = true
      ∧ put (shutdown exSt) exInfo exConnNew = (shutdown exSt, false)
      ∧ (∀ st3 i3 c3, (put st3 i3 c3).1.closed = st3.closed)
      ∧ (∀ st3 i3 fn d hs2, (get st3 i3 fn d hs2).1.closed = st3.closed)) :=
  ⟨rfl, C7_shutdown_drains exSt (shutdown exSt) exInfo exConnNew rfl⟩

/-- C8: the idle stack is LIFO — if `a` and then `b` are `put` to the same
bucket (both accepted), the next acquire that pops (cached hash valid, popped
connection still open) reuses `b`. -/
theorem C8_lifo_reuse (st : GlobalConnPool) (info : ConnInfo) (a b : ClientInner)
    (dial : Except String ClientInner) (hs : Except String Nat)
    (h1 : (put st info a).2 = true)
    (h2 : (put (put st info a).1 info b).2 = true)
    (hopen : b.isClosed = false)
    (hv : hashValid (put (put st info a).1 info b).1 info = true) :
    (get (put (put st info a).1 info b).1 info false dial hs).2
      = Except.ok (Client.new b (some info)) := by
  obtain ⟨ep, bk, hsh, hep, hb, hie, hh, hver⟩ := hashValid_spec hv
  have hconns2 := put_returned_conns h2
  have hbc : bk.conns
      = bucketConns (put st info a).1 info.hostname info.db_and_user ++ [⟨b⟩] := by
    rw [← bucketConns_of hep hb]
    exact hconns2
  have hpp := acquirePeekPop_pop
    (bucketConns (put st info a).1 info.hostname info.db_and_user)
    ⟨b⟩ hep hb hbc hh hver
  rw [get_eq_of_pop hpp]
  rw [if_neg (by simp [hopen])]

theorem C8_lifo_reuse_witness :
    ((put exStH exInfo exConnA).2 = true
      ∧ (put (put exStH exInfo exConnA).1 exInfo exConnB).2 = true
      ∧ exConnB.isClosed = false
      ∧ hashValid (put (put exStH exInfo exConnA).1 exInfo exConnB).1 exInfo = true)
    ∧ (get (put (put exStH exInfo exConnA).1 exInfo exConnB).1 exInfo false
        (Except.error "unreachable") (Except.ok 0)).2
      = Except.ok (Client.new exConnB (some exInfo)) :=
  ⟨⟨by decide, by decide, rfl, by decide⟩,
    C8_lifo_reuse exStH exInfo exConnA exConnB (Except.error "unreachable") (Except.ok 0)
      (by decide) (by decide) rfl (by decide)⟩

end ConnPool
